import Mathlib

/-!
Shallow embedding of the document-processing pipeline
(repository `go-ocr-pipeline`), covering:

* the chunk model (`internal/models/document.go`),
* the normalizer `JSONConverter.Convert` (`pkg/converters/json_converter.go`),
* the PDF extractor (`internal/agent/document/pdf/processor.go`),
* the task queue (`pkg/queue/queue.go`),
* the ingest service (`internal/service/document/document_impl.go`),
* the local OCR + vision extractor (`internal/agent/document/image/processor.go`),
* the cloud OCR extractor (`internal/agent/document/image/textract_processor.go`),
* the adaptive-threshold preprocessor (`internal/agent/document/image/preprocessors.go`).

Go `float64` values are modelled by `ℚ` (the code performs only
additions, divisions and comparisons on small values, where the two
agree), Go `int`/`int64` by `Int`, and Go maps of metadata by
association lists looked up by key.  External collaborators (the PDF
library, Redis, the broker, Tesseract, the vision endpoint, AWS
Textract) are modelled as oracle inputs.
-/

namespace DocPipeline

/-- Dynamic (JSON-like) metadata value, mirroring Go `interface\x7b\x7d`
values stored in chunk metadata.  The constructors distinguish the Go
dynamic types that the code's type assertions distinguish
(`string`, `int`, `int64`, `float64`, and the region list produced by
the local OCR extractor). -/
inductive MetaValue where
  | vstr (s : String)
  | vint (n : Int)
  | vint64 (n : Int)
  | vfloat (q : ℚ)
  | vregions (n : List (Int × Int × Int × Int × String × ℚ))
deriving DecidableEq, Repr

/-- Chunk metadata: Go `map[string]interface\x7b\x7d`, modelled as an
association list with first-match lookup. -/
def metaLookup (md : List (String × MetaValue)) (key : String) : Option MetaValue :=
  match md with
  | [] => none
  | (k, v) :: rest => if k = key then some v else metaLookup rest key

/-- `models.DocumentChunk`: a `(content, metadata)` pair. -/
structure DocumentChunk where
  content : String
  metadata : List (String × MetaValue)
deriving DecidableEq, Repr

/-- `converters.ChunkContent` (output content block of the normalizer).
The Go field `Type` is called `ctype` here. -/
structure ChunkContent where
  text : String
  position : Int
  ctype : String
  metadata : List (String × MetaValue)
deriving DecidableEq, Repr

/-- `converters.DocumentMetadata` (aggregated metadata of the
normalizer output).  `ProcessedAt`-style wall-clock fields are not
modelled. -/
structure OutDocMetadata where
  fileName : String
  fileType : String
  fileSize : Int
  pageCount : Int
  sections : List String
  language : String
  confidence : ℚ
  processingMs : Int
deriving DecidableEq, Repr

/-- `converters.ProcessedDocument`. -/
structure ProcessedDocument where
  taskId : String
  status : String
  content : List ChunkContent
  metadata : OutDocMetadata
deriving DecidableEq, Repr

/-- The per-chunk type tag assigned by `Convert`: "page" when the
metadata has a `pageNumber` key, else "image" when it has an
`imageType` key, else the zero value `""`. -/
def chunkTypeTag (md : List (String × MetaValue)) : String :=
  if (metaLookup md "pageNumber").isSome then "page"
  else if (metaLookup md "imageType").isSome then "image"
  else ""

/-- The loop of `Convert` that builds `doc.Content`: chunk `i`
(0-based) becomes a `ChunkContent` with `Position = i + 1`. -/
def buildContent : Nat → List DocumentChunk → List ChunkContent
  | _, [] => []
  | i, c :: rest =>
    { text := c.content, position := (i : Int) + 1,
      ctype := chunkTypeTag c.metadata, metadata := c.metadata }
      :: buildContent (i + 1) rest

/-- The confidence contributed by one chunk in `Convert`'s loop: the
value of the `confidence` metadata entry when it is a `float64`,
otherwise 0 (the type assertion fails and nothing is added). -/
def confidenceValue (c : DocumentChunk) : ℚ :=
  match metaLookup c.metadata "confidence" with
  | some (.vfloat q) => q
  | _ => 0

/-- Whether a chunk carries a `float64` `confidence` metadata entry. -/
def carriesConfidence (c : DocumentChunk) : Bool :=
  match metaLookup c.metadata "confidence" with
  | some (.vfloat _) => true
  | _ => false

/-- `totalConfidence` accumulated by `Convert`'s loop. -/
def totalConfidence (chunks : List DocumentChunk) : ℚ :=
  (chunks.map confidenceValue).sum

/-- The string value of a chunk's `section` metadata entry, when
present (string-typed). -/
def sectionValue (c : DocumentChunk) : Option String :=
  match metaLookup c.metadata "section" with
  | some (.vstr s) => some s
  | _ => none

/-- Section collection of `Convert`.  The Go code collects sections
into a set (`map[string]bool`) and then iterates it in unspecified
order; we fix first-occurrence order.  No claim depends on the
order. -/
def collectSections (chunks : List DocumentChunk) : List String :=
  chunks.foldl
    (fun acc c =>
      match sectionValue c with
      | some s => if s ∈ acc then acc else acc ++ [s]
      | none => acc)
    []

/-- The `fileName` read by `Convert` from the first chunk's metadata
(string-typed `filename` key, guarded by the metadata map being
non-empty). -/
def firstChunkStr (chunks : List DocumentChunk) (key : String) : String :=
  match chunks with
  | [] => ""
  | c :: _ =>
    if c.metadata.length > 0 then
      match metaLookup c.metadata key with
      | some (.vstr s) => s
      | _ => ""
    else ""

/-- The `fileSize` read by `Convert` from the first chunk's metadata
(`int64`-typed `size` key). -/
def firstChunkSize (chunks : List DocumentChunk) : Int :=
  match chunks with
  | [] => 0
  | c :: _ =>
    if c.metadata.length > 0 then
      match metaLookup c.metadata "size" with
      | some (.vint64 n) => n
      | _ => 0
    else 0

/-- The `pageCount` read by `Convert` from the first chunk's metadata
(`int`-typed `pageCount` key). -/
def firstChunkPageCount (chunks : List DocumentChunk) : Int :=
  match chunks with
  | [] => 0
  | c :: _ =>
    if c.metadata.length > 0 then
      match metaLookup c.metadata "pageCount" with
      | some (.vint n) => n
      | _ => 0
    else 0

/-- `JSONConverter.Convert`.  Empty input is an error.  The document's
`Metadata.Confidence` is initialized to 1.0 but, since the guard
`len(chunks) > 0` always holds on the non-error path, it is always
overwritten with `totalConfidence / len(chunks)`. -/
def Convert (chunks : List DocumentChunk) : Except String ProcessedDocument :=
  if chunks.isEmpty then .error "no chunks to convert"
  else
    let conf : ℚ :=
      if chunks.length > 0 then totalConfidence chunks / (chunks.length : ℚ) else 1
    .ok
      { taskId := "", status := "completed",
        content := buildContent 0 chunks,
        metadata :=
          { fileName := firstChunkStr chunks "filename",
            fileType := firstChunkStr chunks "type",
            fileSize := firstChunkSize chunks,
            pageCount := firstChunkPageCount chunks,
            sections := collectSections chunks,
            language := "",
            confidence := conf,
            processingMs := 0 } }

/-- The confidence of the converted document, when conversion
succeeds. -/
def convertConfidence (chunks : List DocumentChunk) : Option ℚ :=
  match Convert chunks with
  | .ok doc => some doc.metadata.confidence
  | .error _ => none

/-- Modelled from the spec (for comparison with the code): "the
arithmetic mean of all `confidence` values ... defaults to 1.0 if no
chunk carries confidence" — the mean over exactly the chunks carrying
a confidence entry, 1 when none does. -/
def specMeanConfidence (chunks : List DocumentChunk) : ℚ :=
  let carrying := chunks.filter carriesConfidence
  if carrying.length = 0 then 1
  else (carrying.map confidenceValue).sum / (carrying.length : ℚ)

/-! ### PDF extractor (`internal/agent/document/pdf/processor.go`)

`Processor.Process` fans page extraction out onto up to 4 concurrent
workers.  Worker `n` (for page `n`, 1-based) skips the page when it is
null, otherwise sends one chunk on a buffered channel; a collector
appends chunks in channel-arrival order.  The workers are independent
(the 4-permit semaphore bounds concurrency but does not constrain the
relative order of sends), so the arrival order is modelled as an
explicit schedule: any permutation of the non-null page numbers is
admissible.  Per-page text extraction is an external library call,
modelled by the `text` field of a page. -/

/-- One page of the in-memory PDF: whether `Page(n).V.IsNull()` holds,
and the text `GetPlainText` returns for it. -/
structure PdfPage where
  isNull : Bool
  text : String
deriving DecidableEq, Repr

/-- The 1-based page numbers of the non-null pages, in page order
(workers for null pages return without sending a chunk). -/
def nonNullFrom : Nat → List PdfPage → List Nat
  | _, [] => []
  | n, p :: rest =>
    if p.isNull then nonNullFrom (n + 1) rest
    else n :: nonNullFrom (n + 1) rest

/-- Page numbers whose workers send a chunk. -/
def nonNullPageNums (pages : List PdfPage) : List Nat :=
  nonNullFrom 1 pages

/-- The chunk sent by the worker of page `n`: the page text plus
metadata `page`, `hash` and `section = "page_<n>"`. -/
def pdfChunk (hash : String) (pages : List PdfPage) (n : Nat) : DocumentChunk :=
  { content := (match pages.get? (n - 1) with | some p => p.text | none => ""),
    metadata :=
      [("page", .vint (n : Int)), ("hash", .vstr hash),
       ("section", .vstr ("page_" ++ toString n))] }

/-- `Processor.cleanText` is currently the identity. -/
def cleanText (s : String) : String := s

/-- `Processor.postProcessChunks` applies `cleanText` to every chunk's
content and keeps the metadata. -/
def postProcessChunks (chunks : List DocumentChunk) : List DocumentChunk :=
  chunks.map fun c => { content := cleanText c.content, metadata := c.metadata }

/-- `Processor.Process` on the success path, at a given channel-arrival
schedule `sched` (the sequence of page numbers in the order their
chunks arrive).  A schedule is admissible when it is a permutation of
the non-null page numbers. -/
def pdfProcess (hash : String) (pages : List PdfPage) (sched : List Nat) :
    List DocumentChunk :=
  postProcessChunks (sched.map (pdfChunk hash pages))

/-- The `page` metadata entries of a chunk sequence (present on every
chunk the PDF extractor produces). -/
def chunkPageNums (chunks : List DocumentChunk) : List Int :=
  chunks.filterMap fun c =>
    match metaLookup c.metadata "page" with
    | some (.vint n) => some n
    | _ => none

/-! ### Task queue (`pkg/queue/queue.go`) -/

/-- `queue.TaskStatus`.  The wall-clock fields `StartedAt` and
`FinishedAt` are not modelled. -/
structure TaskStatus where
  taskId : String
  status : String
  progress : ℚ
  error : String
deriving DecidableEq, Repr

/-- The broker-internal task states of the `asynq` library. -/
inductive AsynqState where
  | active | pending | scheduled | retry | archived | completed | aggregating
deriving DecidableEq, Repr

/-- `asynq.TaskInfo`, restricted to the fields `convertAsynqStatus`
reads. -/
structure TaskInfo where
  id : String
  state : AsynqState
  lastErr : String
deriving DecidableEq, Repr

/-- `convertAsynqStatus`: projects the broker state onto the canonical
status strings.  States outside the four switch cases leave the zero
values (`Status = ""`, `Progress = 0`). -/
def convertAsynqStatus (info : TaskInfo) : TaskStatus :=
  let base : TaskStatus :=
    { taskId := info.id, status := "", progress := 0, error := "" }
  match info.state with
  | .pending => { base with status := "pending" }
  | .active => { base with status := "running", progress := 1 / 2 }
  | .completed => { base with status := "completed", progress := 1 }
  | .retry => { base with status := "failed", error := info.lastErr }
  | _ => base

/-- `queue.Task`, with the payload's four fixed keys made explicit. -/
structure QueueTask where
  id : String
  qtype : String
  priority : Int
  payloadFileId : String
  payloadFilename : String
  payloadSize : Int
  payloadType : String
  metadata : List (String × String)
deriving DecidableEq, Repr

/-- The per-task options `Enqueue` attaches (`ProcessIn` one second,
`MaxRetry` 3, `Timeout` 30 minutes, the task id, and the queue selected
from the priority). -/
structure EnqueueOpts where
  processInSeconds : Int
  maxRetry : Nat
  timeoutMinutes : Int
  taskId : String
  queue : String
deriving DecidableEq, Repr

/-- The queue-name switch of `Enqueue`: priority 1 selects `critical`,
2 selects `default`, anything else `low`. -/
def queueForPriority (p : Int) : String :=
  if p = 1 then "critical"
  else if p = 2 then "default"
  else "low"

/-- The options `Enqueue` builds for a task. -/
def enqueueOpts (t : QueueTask) : EnqueueOpts :=
  { processInSeconds := 1, maxRetry := 3, timeoutMinutes := 30,
    taskId := t.id, queue := queueForPriority t.priority }

/-- The queue-probing loop of `GetTaskStatus`: iterates the queue
names, breaking on the first queue in which the inspector finds the
task; `lastErr` (modelled by the `Bool`) is set by every miss and is
NOT cleared by a later hit.  Returns the found info (if any) and
whether `lastErr` is set. -/
def probeLoop (inspect : String → Option TaskInfo) :
    List String → Option TaskInfo → Bool → Option TaskInfo × Bool
  | [], info, errSet => (info, errSet)
  | q :: rest, _, errSet =>
    match inspect q with
    | some i => (some i, errSet)
    | none => probeLoop inspect rest none true

/-- `AsynqQueue.GetTaskStatus`: first consults the sidecar KV under
`task_status:<id>`; on a miss it probes the queues `critical`,
`default`, `low` in order and, when `lastErr` is unset, projects the
broker state through `convertAsynqStatus`.  The opportunistic
write-back to the KV is a side effect not modelled here.  The KV is
modelled as a partial map (transient Redis errors and corrupt entries
are out of scope); the inspector as a partial map from queue name and
task id to `TaskInfo`. -/
def getTaskStatus (kv : String → Option TaskStatus)
    (inspect : String → String → Option TaskInfo) (taskID : String) :
    Except String TaskStatus :=
  match kv ("task_status:" ++ taskID) with
  | some st => .ok st
  | none =>
    match probeLoop (fun q => inspect q taskID) ["critical", "default", "low"]
        none false with
    | (_, true) => .error "task not found in any queue"
    | (some info, false) => .ok (convertAsynqStatus info)
    | (none, false) => .error "nil task info"

/-! ### Ingest service (`internal/service/document/document_impl.go`) -/

/-- `models.ProcessingStatus`. -/
inductive ProcessingStatus where
  | pending | running | completed | failed | cancelled
deriving DecidableEq, Repr

/-- `models.ProcessingTask` (wall-clock fields not modelled). -/
structure ProcessingTask where
  id : String
  status : ProcessingStatus
  ptype : String
  priority : Int
  progress : ℚ
  error : String
  metadata : List (String × String)
deriving DecidableEq, Repr

/-- `document.ServiceConfig` (the duration fields are irrelevant to
the claims and are not modelled). -/
structure ServiceConfig where
  maxFileSize : Int
  allowedTypes : List String
  storagePath : String
  queuePriority : Int
  maxConcurrent : Int
deriving DecidableEq, Repr

/-- The default configuration built by `NewService` when `cfg == nil`
(and equally by `GetService`).  The Go composite literal omits
`QueuePriority` and `StoragePath`, leaving their zero values. -/
def defaultServiceConfig : ServiceConfig :=
  { maxFileSize := 50 * 1024 * 1024,
    allowedTypes := [".pdf", ".doc", ".docx", ".jpg", ".jpeg", ".png", ".tiff"],
    storagePath := "",
    queuePriority := 0,
    maxConcurrent := 5 }

/-- A multipart file header: filename and size. -/
structure FileHeader where
  filename : String
  size : Int
deriving DecidableEq, Repr

/-- Helper of `filepathExt`: walk the reversed character list; stop
with `""` at a path separator, return the suffix from the last dot
otherwise. -/
def extFromRev : List Char → List Char → String
  | [], _ => ""
  | c :: rest, acc =>
    if c = '/' then ""
    else if c = '.' then String.mk (c :: acc)
    else extFromRev rest (c :: acc)

/-- Go `filepath.Ext`: the suffix beginning at the final dot in the
final path element, empty when there is no dot. -/
def filepathExt (path : String) : String :=
  extFromRev path.toList.reverse []

/-- Go `strings.ToLower` (ASCII case, which covers file
extensions). -/
def strToLower (s : String) : String :=
  String.mk (s.data.map Char.toLower)

/-- `DocumentService.validateFile`: an error when the size exceeds the
limit or the lowercased extension is not in the allow-list, `none`
otherwise.  (The Go membership loop `t == ext` is list membership.) -/
def validateFile (cfg : ServiceConfig) (h : FileHeader) : Option String :=
  if h.size > cfg.maxFileSize then
    some "file size exceeds maximum limit"
  else
    let ext := strToLower (filepathExt h.filename)
    if ext ∈ cfg.allowedTypes then none
    else some ("unsupported file type: " ++ ext)

/-- An externally visible side effect of the ingest path. -/
inductive Effect where
  | store (key : String)
  | enqueue (queueName : String) (task : QueueTask)
  | saveStatus (st : TaskStatus)
deriving DecidableEq, Repr

/-- Result of `ProcessFile`: its return value together with the side
effects that actually took place. -/
structure ProcessFileOutcome where
  result : Except String ProcessingTask
  effects : List Effect
deriving Repr

/-- `DocumentService.ProcessFile`.  `taskID` stands for the freshly
minted UUID, `storeResult` for the outcome of `storage.Store`,
`enqueueOk`/`saveOk` for the outcomes of `queue.Enqueue` and
`queue.SaveFinalStatus`.  Validation failure returns before any side
effect; a failed store leaves no blob; a failed enqueue leaves the
stored blob in place (no rollback); the initial-status write is
best-effort (its failure is only logged). -/
def processFile (cfg : ServiceConfig) (taskID : String) (h : FileHeader)
    (storeResult : Except String String) (enqueueOk : Bool) (saveOk : Bool) :
    ProcessFileOutcome :=
  match validateFile cfg h with
  | some e => { result := .error e, effects := [] }
  | none =>
    let ext := filepathExt h.filename
    let task : ProcessingTask :=
      { id := taskID, status := .pending, ptype := "document:process",
        priority := cfg.queuePriority, progress := 0, error := "",
        metadata :=
          [("filename", h.filename), ("size", toString h.size), ("type", ext)] }
    match storeResult with
    | .error e => { result := .error ("failed to store file: " ++ e), effects := [] }
    | .ok fileID =>
      let qt : QueueTask :=
        { id := taskID, qtype := task.ptype, priority := task.priority,
          payloadFileId := fileID, payloadFilename := h.filename,
          payloadSize := h.size, payloadType := ext,
          metadata := task.metadata }
      if enqueueOk then
        let initial : TaskStatus :=
          { taskId := taskID, status := "pending", progress := 0, error := "" }
        { result := .ok task,
          effects :=
            [.store fileID, .enqueue (enqueueOpts qt).queue qt]
              ++ (if saveOk then [.saveStatus initial] else []) }
      else
        { result := .error "failed to enqueue task", effects := [.store fileID] }

/-- The status-string switch of `DocumentService.GetProcessingStatus`:
it recognizes only `pending`, `active`, `completed` and `failed`, and
maps every other string (including `running`) to `StatusPending`. -/
def mapStatusString (s : String) : ProcessingStatus :=
  if s = "pending" then .pending
  else if s = "active" then .running
  else if s = "completed" then .completed
  else if s = "failed" then .failed
  else .pending

/-- The `ProcessingTask` built by `GetProcessingStatus` from the queue
status. -/
def projectTask (st : TaskStatus) : ProcessingTask :=
  { id := st.taskId, status := mapStatusString st.status,
    ptype := "document:process", priority := 0, progress := st.progress,
    error := st.error, metadata := [] }

/-- `DocumentService.GetProcessingStatus` end to end: the queue lookup
followed by the projection. -/
def getProcessingStatus (kv : String → Option TaskStatus)
    (inspect : String → String → Option TaskInfo) (taskID : String) :
    Except String ProcessingTask :=
  (getTaskStatus kv inspect taskID).map projectTask

/-! ### Local OCR + vision extractor
(`internal/agent/document/image/processor.go`)

`Processor.Process` (image family) on the path where decoding,
preprocessing and OCR succeed.  The OCR result (an external Tesseract
call post-processed by `postProcessOCR`) and the two fallible vision
steps (client-pool acquisition, the vision HTTP call) are oracle
inputs. -/

/-- The outcome of the OCR step (`performOCRWithClient` followed by
`postProcessOCR`): the text, the average confidence over surviving
boxes, and the region list. -/
structure OcrOutcome where
  text : String
  confidence : ℚ
  regions : List (Int × Int × Int × Int × String × ℚ)
deriving DecidableEq, Repr

/-- The vision-related configuration read by `Process`
(`OllamaConfig.Enabled` and `.Model`). -/
structure VisionConfig where
  enabled : Bool
  model : String
deriving DecidableEq, Repr

/-- The OCR chunk `Process` always builds first: content is the OCR
text; metadata carries `source:"tesseract"`, the confidence and the
regions. -/
def ocrChunk (o : OcrOutcome) : DocumentChunk :=
  { content := o.text,
    metadata :=
      [("source", .vstr "tesseract"), ("confidence", .vfloat o.confidence),
       ("regions", .vregions o.regions)] }

/-- The chunk appended for a non-empty vision answer: metadata carries
`source:"ollama"` and the model name. -/
def visionChunk (model text : String) : DocumentChunk :=
  { content := text,
    metadata := [("source", .vstr "ollama"), ("model", .vstr model)] }

/-- The text the vision step leaves in `ollamaText`: `""` unless
vision is enabled, a pool client was acquired and the analysis call
succeeded (`AnalyzeImage` returns `""` alongside every error; failures
are only logged). -/
def ollamaTextOf (cfg : VisionConfig) (poolGet : Except String Unit)
    (visionResult : Except String String) : String :=
  if cfg.enabled then
    match poolGet with
    | .error _ => ""
    | .ok _ =>
      match visionResult with
      | .error _ => ""
      | .ok t => t
  else ""

/-- `Processor.Process` (image): the OCR chunk, followed by a vision
chunk exactly when `ollamaText` is non-empty. -/
def imageProcess (cfg : VisionConfig) (o : OcrOutcome)
    (poolGet : Except String Unit) (visionResult : Except String String) :
    List DocumentChunk :=
  let ollamaText := ollamaTextOf cfg poolGet visionResult
  let chunks := [ocrChunk o]
  if ollamaText ≠ "" then chunks ++ [visionChunk cfg.model ollamaText]
  else chunks

/-! ### Cloud OCR extractor
(`internal/agent/document/image/textract_processor.go`)

`TextractProcessor.Process` on the path where the AnalyzeDocument call
succeeded; the returned block graph is the oracle input.  Nil-pointer
dereferences that the Go code can hit on degenerate block graphs (a
`LINE` block with nil `Text`, a cell index outside the freshly
allocated matrix) are modelled by `Option`, `none` standing for a
panic. -/

/-- The block types the code distinguishes. -/
inductive BlockType where
  | line | word | table | cell | keyValueSet | page | other
deriving DecidableEq, Repr

/-- `EntityType` values of a `KEY_VALUE_SET` block. -/
inductive TEntityType where
  | key | value
deriving DecidableEq, Repr

/-- A block relationship: its type string (`"CHILD"` or `"VALUE"`) and
the ids it points to. -/
structure TRelationship where
  rtype : String
  ids : List String
deriving DecidableEq, Repr

/-- A Textract block, restricted to the fields the code reads.
Pointer-typed Go fields are `Option`s. -/
structure TBlock where
  blockType : BlockType
  confidence : Option ℚ
  text : Option String
  bid : Option String
  entityTypes : List TEntityType
  relationships : List TRelationship
  rowIndex : Option Int
  columnIndex : Option Int
deriving DecidableEq, Repr

/-- The filter of `processBlocks`: a `LINE` block with non-nil
confidence at least `MinConfidence`. -/
def lineKeeps (minC : ℚ) (b : TBlock) : Bool :=
  b.blockType == .line &&
    (match b.confidence with
     | some c => decide (minC ≤ c)
     | none => false)

/-- `processBlocks`: the texts of the kept `LINE` blocks in block
order.  A kept block with nil `Text` is dereferenced unchecked in Go
(`*block.Text`): that panic is `none`. -/
def lineTexts (minC : ℚ) : List TBlock → Option (List String)
  | [] => some []
  | b :: rest =>
    if lineKeeps minC b then
      match b.text with
      | none => none
      | some t => (lineTexts minC rest).map (t :: ·)
    else lineTexts minC rest

/-- The `Table` struct built by `processTables`.  Its `Content` field
is never assigned, so table chunks end up with empty content. -/
structure TTable where
  rows : Int
  cols : Int
  cells : List (List String)
deriving DecidableEq, Repr

/-- The row/column maxima scan: for every `CELL` block in the whole
block list, the maximum of its (non-nil) `RowIndex` and
`ColumnIndex`. -/
def maxCellIndices (blocks : List TBlock) : Int × Int :=
  blocks.foldl
    (fun rc b =>
      if b.blockType == .cell then
        ((match b.rowIndex with
          | some r => if r > rc.1 then r else rc.1
          | none => rc.1),
         (match b.columnIndex with
          | some c => if c > rc.2 then c else rc.2
          | none => rc.2))
      else rc)
    (0, 0)

/-- A `TABLE` block's dimensions: the maxima scan runs once per
`CHILD` relationship (over the whole block list each time), so the
result is the maxima when some `CHILD` relationship exists and `(0,0)`
otherwise. -/
def tableDims (block : TBlock) (blocks : List TBlock) : Int × Int :=
  if block.relationships.any (fun r => r.rtype == "CHILD") then
    maxCellIndices blocks
  else (0, 0)

/-- Go `Cells[row][col] = text`: `none` models the index-out-of-range
panic. -/
def setCell (cells : List (List String)) (r c : Int) (text : String) :
    Option (List (List String)) :=
  if 0 ≤ r ∧ r.toNat < cells.length then
    match cells.get? r.toNat with
    | none => none
    | some row =>
      if 0 ≤ c ∧ c.toNat < row.length then
        some (cells.set r.toNat (row.set c.toNat text))
      else none
  else none

/-- The loop of `processTables`: `blocks` is the full list (the maxima
scan reads it), the second argument the remaining iteration suffix;
the accumulator holds the finished tables and the current table. -/
def processTablesLoop (blocks : List TBlock) :
    List TBlock → List TTable → Option TTable →
      Option (List TTable × Option TTable)
  | [], acc, cur => some (acc, cur)
  | b :: rest, acc, cur =>
    if b.blockType == .table then
      let acc2 := match cur with | some t => acc ++ [t] | none => acc
      let dims := tableDims b blocks
      let newT : TTable :=
        { rows := dims.1, cols := dims.2,
          cells := List.replicate dims.1.toNat (List.replicate dims.2.toNat "") }
      processTablesLoop blocks rest acc2 (some newT)
    else if b.blockType == .cell then
      match cur with
      | none => processTablesLoop blocks rest acc none
      | some t =>
        match b.rowIndex, b.columnIndex with
        | some r, some c =>
          (match b.text with
           | none => processTablesLoop blocks rest acc (some t)
           | some txt =>
             match setCell t.cells (r - 1) (c - 1) txt with
             | none => none
             | some cells2 =>
               processTablesLoop blocks rest acc (some { t with cells := cells2 }))
        | _, _ => processTablesLoop blocks rest acc (some t)
    else processTablesLoop blocks rest acc cur

/-- `processTables`: run the loop and flush the current table. -/
def processTables (blocks : List TBlock) : Option (List TTable) :=
  match processTablesLoop blocks blocks [] none with
  | none => none
  | some (acc, cur) =>
    some (match cur with | some t => acc ++ [t] | none => acc)

/-- Leading-whitespace trimming on a character list. -/
def dropLeadingWs : List Char → List Char
  | [] => []
  | c :: rest => if c.isWhitespace then dropLeadingWs rest else c :: rest

/-- Go `strings.TrimSpace` (over the whitespace characters that occur
here, which are only the single spaces the builder appends). -/
def trimString (s : String) : String :=
  String.mk ((dropLeadingWs ((dropLeadingWs s.data).reverse)).reverse)

/-- `getTextFromRelationships`: for every `CHILD` relationship, for
every referenced id, for every block with that (non-nil) id and
non-nil text, append the text and a space; finally trim. -/
def childTexts (blocks : List TBlock) (rels : List TRelationship) : String :=
  trimString (rels.foldl
    (fun s rel =>
      if rel.rtype == "CHILD" then
        rel.ids.foldl
          (fun s2 wantedId =>
            blocks.foldl
              (fun s3 b =>
                match b.bid, b.text with
                | some i, some t => if i = wantedId then s3 ++ t ++ " " else s3
                | _, _ => s3)
              s2)
          s
      else s)
    "")

/-- First block whose (non-nil) id equals `wantedId`. -/
def findBlockById (blocks : List TBlock) (wantedId : String) : Option TBlock :=
  blocks.find? (fun b => b.bid == some wantedId)

/-- The id scan of `getValueFromKeyBlock` within one relationship:
the first id some block matches. -/
def valueFromIds (blocks : List TBlock) : List String → Option TBlock
  | [] => none
  | i :: rest =>
    match findBlockById blocks i with
    | some b => some b
    | none => valueFromIds blocks rest

/-- `getValueFromKeyBlock`: the first `VALUE` relationship one of whose
ids matches a block yields that block's child texts; `""` when none
does. -/
def valueFromRels (blocks : List TBlock) : List TRelationship → String
  | [] => ""
  | rel :: rest =>
    if rel.rtype == "VALUE" then
      match valueFromIds blocks rel.ids with
      | some b => childTexts blocks b.relationships
      | none => valueFromRels blocks rest
    else valueFromRels blocks rest

/-- A form key/value pair. -/
structure FormField where
  key : String
  value : String
deriving DecidableEq, Repr

/-- The block filter of `processForms`: a `KEY_VALUE_SET` block whose
first entity type is `KEY`. -/
def isKeyKV (b : TBlock) : Bool :=
  b.blockType == .keyValueSet &&
    (match b.entityTypes with
     | e :: _ => e == .key
     | [] => false)

/-- The key text of a candidate form block. -/
def formKeyText (blocks : List TBlock) (b : TBlock) : String :=
  childTexts blocks b.relationships

/-- The value text of a candidate form block. -/
def formValueText (blocks : List TBlock) (b : TBlock) : String :=
  valueFromRels blocks b.relationships

/-- The loop of `processForms`: a `KEY`-typed `KEY_VALUE_SET` block
contributes a field only when both its key text and its value text are
non-empty. -/
def processFormsAux (blocks : List TBlock) : List TBlock → List FormField
  | [] => []
  | b :: rest =>
    if isKeyKV b then
      let key := formKeyText blocks b
      let value := formValueText blocks b
      if key ≠ "" ∧ value ≠ "" then
        { key := key, value := value } :: processFormsAux blocks rest
      else processFormsAux blocks rest
    else processFormsAux blocks rest

/-- `processForms`. -/
def processForms (blocks : List TBlock) : List FormField :=
  processFormsAux blocks blocks

/-- The Textract configuration fields `Process` reads. -/
structure TextractCfg where
  minConfidence : ℚ
  enableTable : Bool
  enableForm : Bool
deriving DecidableEq, Repr

/-- The text chunk (`LINE` texts joined by newline). -/
def textractTextChunk (t : String) : DocumentChunk :=
  { content := t,
    metadata := [("source", .vstr "textract"), ("type", .vstr "text")] }

/-- A table chunk (`Content` of the table struct is never set, hence
empty content). -/
def textractTableChunk (t : TTable) : DocumentChunk :=
  { content := "",
    metadata :=
      [("source", .vstr "textract"), ("type", .vstr "table"),
       ("rows", .vint t.rows), ("cols", .vint t.cols)] }

/-- A form chunk: content `"<key>: <value>"`, metadata carrying the
key. -/
def textractFormChunk (f : FormField) : DocumentChunk :=
  { content := f.key ++ ": " ++ f.value,
    metadata :=
      [("source", .vstr "textract"), ("type", .vstr "form"),
       ("key", .vstr f.key)] }

/-- `TextractProcessor.Process` after a successful AnalyzeDocument
call: text chunk (when some `LINE` survived), then table chunks (when
enabled), then form chunks (when enabled).  `none` models a panic. -/
def textractProcess (cfg : TextractCfg) (blocks : List TBlock) :
    Option (List DocumentChunk) :=
  match lineTexts cfg.minConfidence blocks with
  | none => none
  | some texts =>
    let chunks :=
      if texts.length > 0 then [textractTextChunk (String.intercalate "\n" texts)]
      else []
    let afterTables :=
      if cfg.enableTable then
        match processTables blocks with
        | none => none
        | some tables => some (chunks ++ tables.map textractTableChunk)
      else some chunks
    match afterTables with
    | none => none
    | some cs =>
      some (if cfg.enableForm then cs ++ (processForms blocks).map textractFormChunk
            else cs)

/-- Whether a chunk is a form chunk (its `type` metadata entry is the
string `form`). -/
def isFormChunk (c : DocumentChunk) : Bool :=
  metaLookup c.metadata "type" == some (.vstr "form")

/-! ### Adaptive-threshold preprocessor
(`internal/agent/document/image/preprocessors.go`)

`AdaptiveThresholdProcessor.Process` works on the grayscale version of
the input (it calls `imaging.Grayscale` first); the model takes the
grayscale image directly, as a gray-value function on an integer
rectangle.  The output image is allocated over the same bounds, filled
white (255), and a pixel is set black (0) when its gray value is below
the clipped-window mean minus the constant. -/

/-- A grayscale image: half-open bounds (Go `bounds.Min`/`bounds.Max`)
and the gray value (0..255) at each pixel. -/
structure GrayImage where
  minX : Int
  maxX : Int
  minY : Int
  maxY : Int
  pix : Int → Int → Nat

/-- The bounds check of the inner loop. -/
def inB (img : GrayImage) (x y : Int) : Bool :=
  decide (img.minX ≤ x) && decide (x < img.maxX) &&
    decide (img.minY ≤ y) && decide (y < img.maxY)

/-- The offsets `-h .. h` iterated by the window loops. -/
def offs (h : Nat) : List Int :=
  (List.range (2 * h + 1)).map (fun (i : Nat) => (i : Int) - (h : Int))

/-- The points of the window around `(x, y)` that survive the bounds
check, in loop order (`dy` outer, `dx` inner). -/
def windowPts (img : GrayImage) (h : Nat) (x y : Int) : List (Int × Int) :=
  ((offs h).flatMap fun dy => (offs h).map fun dx => (x + dx, y + dy)).filter
    fun p => inB img p.1 p.2

/-- The `sum` accumulated over the clipped window. -/
def windowSum (img : GrayImage) (h : Nat) (x y : Int) : Nat :=
  ((windowPts img h x y).map fun p => img.pix p.1 p.2).sum

/-- The `count` accumulated over the clipped window. -/
def windowCount (img : GrayImage) (h : Nat) (x y : Int) : Nat :=
  (windowPts img h x y).length

/-- The output gray value of `AdaptiveThresholdProcessor.Process` at an
in-bounds pixel: with `halfBlock = blockSize / 2` (Go integer
division), black (0) when `count > 0` and the pixel is strictly below
`mean - constant`, otherwise the initial white (255). -/
def adaptiveThresholdAt (blockSize : Nat) (c : ℚ) (img : GrayImage)
    (x y : Int) : Nat :=
  if 0 < windowCount img (blockSize / 2) x y then
    if (img.pix x y : ℚ) <
        (windowSum img (blockSize / 2) x y : ℚ) /
          (windowCount img (blockSize / 2) x y : ℚ) - c then 0
    else 255
  else 255

/-- The integers `lo .. hi` inclusive. -/
def intRange (lo hi : Int) : List Int :=
  (List.range (hi - lo + 1).toNat).map (fun (i : Nat) => lo + (i : Int))

/-- Modelled from the spec (for comparison with the code): the
`blockSize × blockSize` window centered at `(x, y)`, clipped at the
image border — the in-bounds points at distance at most
`(blockSize - 1) / 2` in each coordinate, enumerated column-major
(`x` outer), the opposite nesting of the code's loops. -/
def specWindow (img : GrayImage) (blockSize : Nat) (x y : Int) :
    List (Int × Int) :=
  ((intRange (x - ((blockSize : Int) - 1) / 2)
        (x + ((blockSize : Int) - 1) / 2)).flatMap fun xi =>
      (intRange (y - ((blockSize : Int) - 1) / 2)
        (y + ((blockSize : Int) - 1) / 2)).map fun yi => (xi, yi)).filter
    fun p => inB img p.1 p.2

/-- Modelled from the spec: the mean gray value over the clipped
centered window. -/
def specWindowMean (img : GrayImage) (blockSize : Nat) (x y : Int) : ℚ :=
  (((specWindow img blockSize x y).map fun p => img.pix p.1 p.2).sum : ℚ) /
    ((specWindow img blockSize x y).length : ℚ)

/-! ### Concrete instances used by witnesses and counterexamples -/

/-- Decidable equality for `Except` (elementwise). -/
instance {ε α : Type} [DecidableEq ε] [DecidableEq α] :
    DecidableEq (Except ε α) := fun a b =>
  match a, b with
  | .ok x, .ok y =>
    if h : x = y then .isTrue (by rw [h]) else .isFalse (by simp [h])
  | .error x, .error y =>
    if h : x = y then .isTrue (by rw [h]) else .isFalse (by simp [h])
  | .ok _, .error _ => .isFalse (by simp)
  | .error _, .ok _ => .isFalse (by simp)

/-- A chunk carrying confidence 0.8. -/
def chunkWithConf : DocumentChunk :=
  { content := "a", metadata := [("confidence", .vfloat (4 / 5))] }

/-- A chunk carrying no metadata at all. -/
def chunkNoConf : DocumentChunk :=
  { content := "b", metadata := [] }

/-- The document `Convert` produces for `[chunkNoConf]`. -/
def docNoConf : ProcessedDocument :=
  { taskId := "", status := "completed",
    content := [{ text := "b", position := 1, ctype := "", metadata := [] }],
    metadata :=
      { fileName := "", fileType := "", fileSize := 0, pageCount := 0,
        sections := [], language := "", confidence := 0, processingMs := 0 } }

/-- A two-page PDF with both pages non-null. -/
def pagesTwo : List PdfPage := [⟨false, "a"⟩, ⟨false, "b"⟩]

/-- An empty sidecar KV. -/
def kvEmpty : String → Option TaskStatus := fun _ => none

/-- A broker in which task `t1` sits pending in the `default` queue
(and no other task exists). -/
def inspectDefaultOnly : String → String → Option TaskInfo := fun q tid =>
  if q = "default" ∧ tid = "t1" then some ⟨"t1", .pending, ""⟩ else none

/-- Vision enabled with the default model name. -/
def visionCfgOn : VisionConfig := ⟨true, "llama3.2-vision"⟩

/-- A sample OCR outcome. -/
def ocrSample : OcrOutcome := ⟨"hello", 90, []⟩

/-- A `KEY_VALUE_SET` block typed `KEY` with no relationships (its key
text and value text are both empty). -/
def keyOnlyBlock : TBlock :=
  { blockType := .keyValueSet, confidence := none, text := none,
    bid := some "b1", entityTypes := [.key], relationships := [],
    rowIndex := none, columnIndex := none }

/-- Textract configured with forms enabled and tables disabled. -/
def cfgFormOnly : TextractCfg := ⟨90, false, true⟩

/-- A complete key/value block graph spelling `Name: Alice`. -/
def blocksNameAlice : List TBlock :=
  [{ blockType := .keyValueSet, confidence := none, text := none,
     bid := some "k", entityTypes := [.key],
     relationships := [⟨"CHILD", ["w1"]⟩, ⟨"VALUE", ["v"]⟩],
     rowIndex := none, columnIndex := none },
   { blockType := .word, confidence := none, text := some "Name",
     bid := some "w1", entityTypes := [], relationships := [],
     rowIndex := none, columnIndex := none },
   { blockType := .keyValueSet, confidence := none, text := none,
     bid := some "v", entityTypes := [.value],
     relationships := [⟨"CHILD", ["w2"]⟩],
     rowIndex := none, columnIndex := none },
   { blockType := .word, confidence := none, text := some "Alice",
     bid := some "w2", entityTypes := [], relationships := [],
     rowIndex := none, columnIndex := none }]

/-- A queue task of a given priority (other fields fixed). -/
def qtaskPrio (p : Int) : QueueTask :=
  { id := "id", qtype := "document:process", priority := p,
    payloadFileId := "f", payloadFilename := "n", payloadSize := 1,
    payloadType := ".pdf", metadata := [] }

/-- An upload header with a disallowed extension. -/
def hdrExe : FileHeader := ⟨"malware.exe", 100⟩

/-- A well-formed PDF upload header. -/
def hdrPdf : FileHeader := ⟨"a.pdf", 100⟩

/-- The queue task `ProcessFile` builds for `hdrPdf` under the default
configuration when the store returns key `a.pdf`. -/
def qtPdf : QueueTask :=
  { id := "t", qtype := "document:process", priority := 0,
    payloadFileId := "a.pdf", payloadFilename := "a.pdf", payloadSize := 100,
    payloadType := ".pdf",
    metadata := [("filename", "a.pdf"), ("size", "100"), ("type", ".pdf")] }

/-- A 2 × 2 grayscale image, black at the origin. -/
def imgSample : GrayImage :=
  { minX := 0, maxX := 2, minY := 0, maxY := 2,
    pix := fun x y => if x = 0 ∧ y = 0 then 0 else 255 }

/-! ## Helper lemmas -/

/-- A chunk without a float-typed `confidence` entry contributes 0. -/
theorem confidenceValue_of_not_carries (c : DocumentChunk)
    (h : carriesConfidence c = false) : confidenceValue c = 0 := by
  unfold carriesConfidence at h
  unfold confidenceValue
  rcases hm : metaLookup c.metadata "confidence" with _ | v
  · simp [hm]
  · rw [hm] at h
    cases v <;> simp_all

/-- The confidence total equals the sum over the carrying chunks. -/
theorem totalConfidence_eq_filter (chunks : List DocumentChunk) :
    totalConfidence chunks =
      ((chunks.filter carriesConfidence).map confidenceValue).sum := by
  induction chunks with
  | nil => rfl
  | cons c rest ih =>
    by_cases hc : carriesConfidence c = true
    · simp only [totalConfidence, List.map_cons, List.sum_cons,
        List.filter_cons, hc, if_true]
      exact congrArg (confidenceValue c + ·) ih
    · have hc' : carriesConfidence c = false := by
        simpa using hc
      simp only [totalConfidence, List.map_cons, List.sum_cons,
        List.filter_cons, hc', Bool.false_eq_true, if_false]
      rw [confidenceValue_of_not_carries c hc', zero_add]
      exact ih

/-! ## Claim C1 -/

/-- Claim C1, as stated, is false: with one chunk carrying confidence
0.8 and one chunk carrying none, `Convert` produces confidence
0.4 (it divides the confidence total by the number of ALL chunks),
while the claimed mean over the carrying chunks is 0.8; and for a
chunk sequence in which no chunk carries confidence, `Convert`
produces 0, not the claimed default 1.0. -/
theorem claim_c1_counterexample :
    convertConfidence [chunkWithConf, chunkNoConf] = some (2 / 5) ∧
    specMeanConfidence [chunkWithConf, chunkNoConf] = 4 / 5 ∧
    convertConfidence [chunkNoConf] = some 0 ∧
    specMeanConfidence [chunkNoConf] = 1 ∧
    (2 / 5 : ℚ) ≠ 4 / 5 ∧ (0 : ℚ) ≠ 1 := by
  refine ⟨?_, ?_, ?_, ?_, by norm_num, by norm_num⟩
  · norm_num [convertConfidence, Convert, chunkWithConf, chunkNoConf,
      totalConfidence, confidenceValue, metaLookup]
  · norm_num [specMeanConfidence, chunkWithConf, chunkNoConf,
      carriesConfidence, confidenceValue, metaLookup, List.filter]
  · norm_num [convertConfidence, Convert, chunkNoConf, totalConfidence,
      confidenceValue, metaLookup]
  · norm_num [specMeanConfidence, chunkNoConf, carriesConfidence,
      confidenceValue, metaLookup, List.filter]

/-- Claim C1, amended: for every non-empty chunk sequence,
`JSONConverter.Convert` sets the document's `metadata.confidence` to
the sum of the confidence values of exactly those chunks that carry a
`float64` confidence entry, divided by the TOTAL number of chunks (so
it is 0, not 1.0, when no chunk carries one). -/
theorem claim_c1_amended (chunks : List DocumentChunk) (h : chunks ≠ []) :
    ∃ doc, Convert chunks = .ok doc ∧
      doc.metadata.confidence =
        ((chunks.filter carriesConfidence).map confidenceValue).sum /
          (chunks.length : ℚ) := by
  have hne : chunks.isEmpty = false := by
    simpa [List.isEmpty_iff] using h
  have hlen : chunks.length > 0 := List.length_pos.mpr h
  unfold Convert
  rw [if_neg (by simp [hne])]
  refine ⟨_, rfl, ?_⟩
  simp only [if_pos hlen]
  exact congrArg (· / (chunks.length : ℚ)) (totalConfidence_eq_filter chunks)

/-- Witness for the amended claim C1 at a concrete input. -/
theorem claim_c1_amended_witness :
    [chunkWithConf, chunkNoConf] ≠ [] ∧
    ∃ doc, Convert [chunkWithConf, chunkNoConf] = .ok doc ∧
      doc.metadata.confidence =
        (([chunkWithConf, chunkNoConf].filter carriesConfidence).map
            confidenceValue).sum /
          (([chunkWithConf, chunkNoConf] : List DocumentChunk).length : ℚ) :=
  ⟨by decide, claim_c1_amended [chunkWithConf, chunkNoConf] (by decide)⟩

/-- Positions assigned by `buildContent` count up from the starting
index. -/
theorem buildContent_position (l : List DocumentChunk) :
    ∀ (i j : Nat) (hj : j < (buildContent i l).length),
      ((buildContent i l).get ⟨j, hj⟩).position = (i : Int) + j + 1 := by
  induction l with
  | nil => intro i j hj; simp [buildContent] at hj
  | cons c rest ih =>
    intro i j hj
    cases j with
    | zero => simp [buildContent]
    | succ j =>
      have := ih (i + 1) j (by simpa [buildContent] using hj)
      simp only [buildContent, List.get_cons_succ] at *
      rw [this]
      push_cast
      ring

/-- The `page` metadata of the PDF extractor's output lists the
scheduled page numbers in schedule order. -/
theorem chunkPageNums_pdfProcess (hash : String) (pages : List PdfPage)
    (sched : List Nat) :
    chunkPageNums (pdfProcess hash pages sched) =
      sched.map Int.ofNat := by
  induction sched with
  | nil => rfl
  | cons n rest ih =>
    simp only [pdfProcess, postProcessChunks, chunkPageNums, List.map_cons,
      List.filterMap_cons] at *
    rw [ih]
    rfl

/-! ## Claim C2 -/

/-- Claim C2's PDF-ordering half, as stated, is false: the collector
appends chunks in channel-arrival order, and with two non-null pages
and 4 concurrent page workers the arrival order `[2, 1]` is admissible
(a permutation of the non-null page numbers), producing the page
sequence `[2, 1]`, which is not ascending. -/
theorem claim_c2_counterexample :
    [2, 1].Perm (nonNullPageNums pagesTwo) ∧
    chunkPageNums (pdfProcess "h" pagesTwo [2, 1]) = [2, 1] ∧
    ¬ List.Chain' (· ≤ ·) (chunkPageNums (pdfProcess "h" pagesTwo [2, 1])) := by
  refine ⟨by decide, by decide, ?_⟩
  rw [chunkPageNums_pdfProcess]
  simp only [List.map_cons, List.map_nil, List.chain'_cons,
    List.chain'_singleton, and_true]
  decide

/-- Claim C2, amended: the `page` metadata of the chunks returned by
the PDF extractor under any admissible arrival schedule is a
permutation of the non-null page numbers (the order is the
nondeterministic channel-arrival order, not necessarily ascending);
and every `ProcessedDocument` produced by the normalizer has
`content[i].position = i + 1` at every index. -/
theorem claim_c2_amended :
    (∀ (hash : String) (pages : List PdfPage) (sched : List Nat),
        sched.Perm (nonNullPageNums pages) →
          (chunkPageNums (pdfProcess hash pages sched)).Perm
            ((nonNullPageNums pages).map Int.ofNat)) ∧
    (∀ (chunks : List DocumentChunk) (doc : ProcessedDocument),
        Convert chunks = .ok doc →
          ∀ (j : Nat) (hj : j < doc.content.length),
            (doc.content.get ⟨j, hj⟩).position = (j : Int) + 1) := by
  constructor
  · intro hash pages sched hperm
    rw [chunkPageNums_pdfProcess]
    exact hperm.map _
  · intro chunks doc hok j hj
    have hne : ¬ chunks.isEmpty = true := by
      intro habs
      rw [Convert, if_pos habs] at hok
      exact Except.noConfusion hok
    rw [Convert, if_neg hne] at hok
    have hdoc := (Except.ok.injEq _ _).mp hok
    subst hdoc
    have := buildContent_position chunks 0 j (by simpa using hj)
    simpa using this

/-- Witness for the amended claim C2 at a concrete schedule and a
concrete converted document. -/
theorem claim_c2_amended_witness :
    (chunkPageNums (pdfProcess "h" pagesTwo [2, 1])).Perm
        ((nonNullPageNums pagesTwo).map Int.ofNat) ∧
    (docNoConf.content.get ⟨0, by decide⟩).position = (0 : Int) + 1 :=
  ⟨claim_c2_amended.1 "h" pagesTwo [2, 1] (by decide),
   claim_c2_amended.2 [chunkNoConf] docNoConf (by norm_num [Convert, docNoConf,
     chunkNoConf, buildContent, chunkTypeTag, metaLookup, totalConfidence,
     confidenceValue, collectSections, sectionValue, firstChunkStr,
     firstChunkSize, firstChunkPageCount]) 0 (by decide)⟩

/-! ## Claim C3 -/

/-- Claim C3 describes the intended projection, but the code has a
bug: the probe loop sets `lastErr` on every miss and never clears it
on a later hit, and `GetTaskStatus` fails whenever `lastErr` is set.
So on a KV miss for a task that sits pending in the `default` queue
(first probe of `critical` misses), the code returns the error
"task not found in any queue" — contradicting its own error message —
instead of the pending projection the claim (and the spec) describe.
A task is projected only when it is found in the first queue probed.
The last conjunct shows the projection the claim expected at this
input. -/
theorem claim_c3_codebug :
    kvEmpty "task_status:t1" = none ∧
    inspectDefaultOnly "default" "t1" = some ⟨"t1", .pending, ""⟩ ∧
    getTaskStatus kvEmpty inspectDefaultOnly "t1" =
      .error "task not found in any queue" ∧
    convertAsynqStatus ⟨"t1", .pending, ""⟩ =
      { taskId := "t1", status := "pending", progress := 0, error := "" } := by
  refine ⟨rfl, ?_, ?_, rfl⟩
  · simp [inspectDefaultOnly]
  · simp [getTaskStatus, kvEmpty, probeLoop, inspectDefaultOnly]

/-! ## Claim C4 -/

/-- Claim C4, as stated, is false in its tagging half: when the vision
call returns text, the second chunk's metadata carries
`source:"ollama"` (plus the model name), not `source:"vision"` as the
claim says. -/
theorem claim_c4_counterexample :
    (imageProcess visionCfgOn ocrSample (.ok ()) (.ok "corrected")).map
        (fun c => metaLookup c.metadata "source") =
      [some (.vstr "tesseract"), some (.vstr "ollama")] ∧
    (MetaValue.vstr "ollama") ≠ .vstr "vision" := by
  constructor
  · simp [imageProcess, ollamaTextOf, visionCfgOn, ocrChunk, visionChunk,
      ocrSample, metaLookup]
  · decide

/-- Claim C4, amended: the OCR chunk (metadata `source:"tesseract"`,
`confidence`, `regions`) is always the first chunk, regardless of the
outcome of vision acquisition or analysis; and when vision is enabled,
a pool client is acquired and the vision call returns non-empty text,
that text is emitted as a second chunk whose metadata carries
`source:"ollama"` and the model name. -/
theorem claim_c4_amended :
    (∀ (cfg : VisionConfig) (o : OcrOutcome) (poolGet : Except String Unit)
        (visionResult : Except String String),
        (imageProcess cfg o poolGet visionResult).head? = some (ocrChunk o)) ∧
    (∀ (cfg : VisionConfig) (o : OcrOutcome) (t : String),
        cfg.enabled = true → t ≠ "" →
          imageProcess cfg o (.ok ()) (.ok t) =
            [ocrChunk o, visionChunk cfg.model t]) := by
  constructor
  · intro cfg o poolGet visionResult
    by_cases h : ollamaTextOf cfg poolGet visionResult ≠ ""
    · simp [imageProcess, h]
    · simp [imageProcess, h]
  · intro cfg o t hen hne
    simp [imageProcess, ollamaTextOf, hen, hne]

/-- Witness for the amended claim C4: a failed pool acquisition still
yields the OCR chunk first, and a successful vision call appends the
`ollama`-tagged chunk. -/
theorem claim_c4_amended_witness :
    (imageProcess visionCfgOn ocrSample (.error "timeout") (.ok "x")).head? =
        some (ocrChunk ocrSample) ∧
    imageProcess visionCfgOn ocrSample (.ok ()) (.ok "corrected") =
      [ocrChunk ocrSample, visionChunk visionCfgOn.model "corrected"] :=
  ⟨claim_c4_amended.1 visionCfgOn ocrSample (.error "timeout") (.ok "x"),
   claim_c4_amended.2 visionCfgOn ocrSample "corrected" rfl (by decide)⟩

/-! ## Claim C6 -/

/-- Claim C6, confirmed: `Enqueue` selects the queue named `critical`
exactly for priority 1, `default` exactly for priority 2, and `low`
for every other priority. -/
theorem claim_c6 (t : QueueTask) :
    ((enqueueOpts t).queue = "critical" ↔ t.priority = 1) ∧
    ((enqueueOpts t).queue = "default" ↔ t.priority = 2) ∧
    (t.priority ≠ 1 → t.priority ≠ 2 → (enqueueOpts t).queue = "low") := by
  unfold enqueueOpts queueForPriority
  by_cases h1 : t.priority = 1
  · simp [h1]
  · by_cases h2 : t.priority = 2
    · simp [h1, h2]
    · simp [h1, h2]

/-- Witness for claim C6 at priorities 1, 2 and 3. -/
theorem claim_c6_witness :
    (enqueueOpts (qtaskPrio 1)).queue = "critical" ∧
    (enqueueOpts (qtaskPrio 2)).queue = "default" ∧
    (enqueueOpts (qtaskPrio 3)).queue = "low" :=
  ⟨(claim_c6 (qtaskPrio 1)).1.mpr rfl,
   (claim_c6 (qtaskPrio 2)).2.1.mpr rfl,
   (claim_c6 (qtaskPrio 3)).2.2 (by decide) (by decide)⟩

/-! ## Claim C9 -/

/-- Claim C9, confirmed: the queue projection labels an active broker
task with the string `running`, and `GetProcessingStatus`'s switch
recognizes only `pending`, `active`, `completed` and `failed`, so a
`running` status falls to the default branch and comes back as
`StatusPending`. -/
theorem claim_c9 :
    (∀ info : TaskInfo, info.state = .active →
        (convertAsynqStatus info).status = "running") ∧
    (∀ st : TaskStatus, st.status = "running" →
        (projectTask st).status = .pending) := by
  constructor
  · intro info h
    simp [convertAsynqStatus, h]
  · intro st h
    simp [projectTask, mapStatusString, h]

/-- Witness for claim C9: the projection of an active task maps end to
end to `StatusPending`. -/
theorem claim_c9_witness :
    (convertAsynqStatus ⟨"t", .active, ""⟩).status = "running" ∧
    (projectTask (convertAsynqStatus ⟨"t", .active, ""⟩)).status = .pending :=
  ⟨claim_c9.1 ⟨"t", .active, ""⟩ rfl,
   claim_c9.2 (convertAsynqStatus ⟨"t", .active, ""⟩)
     (claim_c9.1 ⟨"t", .active, ""⟩ rfl)⟩

/-! ## Claim C7 -/

/-- Claim C7, confirmed: `ProcessFile` returns an error — with no
blob stored, no task enqueued and no status persisted — whenever the
header size exceeds the configured `MaxFileSize` or the lowercased
filename extension is not in the configured allow-list; and validation
passes otherwise. -/
theorem claim_c7 (cfg : ServiceConfig) (taskID : String) (h : FileHeader)
    (storeResult : Except String String) (enqueueOk saveOk : Bool) :
    ((h.size > cfg.maxFileSize ∨
        strToLower (filepathExt h.filename) ∉ cfg.allowedTypes) →
      (∃ e, (processFile cfg taskID h storeResult enqueueOk saveOk).result =
          .error e) ∧
        (processFile cfg taskID h storeResult enqueueOk saveOk).effects = []) ∧
    (h.size ≤ cfg.maxFileSize →
      strToLower (filepathExt h.filename) ∈ cfg.allowedTypes →
        validateFile cfg h = none) := by
  constructor
  · intro hbad
    have hval : ∃ e, validateFile cfg h = some e := by
      unfold validateFile
      by_cases hs : h.size > cfg.maxFileSize
      · exact ⟨_, if_pos hs⟩
      · rcases hbad with hbad | hbad
        · exact absurd hbad hs
        · rw [if_neg hs]
          exact ⟨_, if_neg hbad⟩
    rcases hval with ⟨e, he⟩
    unfold processFile
    rw [he]
    exact ⟨⟨e, rfl⟩, rfl⟩
  · intro hsz hmem
    unfold validateFile
    rw [if_neg (by omega), if_pos hmem]

/-- Witness for claim C7: a `.exe` upload is rejected with no side
effects, and a `.pdf` upload of admissible size validates. -/
theorem claim_c7_witness :
    ((∃ e, (processFile defaultServiceConfig "t" hdrExe (.ok "k") true
        true).result = .error e) ∧
      (processFile defaultServiceConfig "t" hdrExe (.ok "k") true
          true).effects = []) ∧
    validateFile defaultServiceConfig hdrPdf = none :=
  ⟨(claim_c7 defaultServiceConfig "t" hdrExe (.ok "k") true true).1
      (Or.inr (by decide)),
   (claim_c7 defaultServiceConfig "t" hdrPdf (.ok "k") true true).2
      (by decide) (by decide)⟩

/-! ## Claim C10 -/

/-- Claim C10, confirmed: under the default `ServiceConfig` (whose Go
composite literal leaves `QueuePriority` at its zero value 0), every
task `ProcessFile` returns has priority 0, and every task it enqueues
has priority 0 and goes to the queue named `low`, never to `critical`
or `default`. -/
theorem claim_c10 (taskID : String) (h : FileHeader)
    (storeResult : Except String String) (enqueueOk saveOk : Bool) :
    (∀ task,
        (processFile defaultServiceConfig taskID h storeResult enqueueOk
            saveOk).result = .ok task →
          task.priority = 0) ∧
    (∀ q qt,
        Effect.enqueue q qt ∈
            (processFile defaultServiceConfig taskID h storeResult enqueueOk
              saveOk).effects →
          qt.priority = 0 ∧ q = "low" ∧ q ≠ "critical" ∧ q ≠ "default") := by
  constructor
  · intro task ht
    unfold processFile at ht
    split at ht
    · exact Except.noConfusion ht
    · split at ht
      · exact Except.noConfusion ht
      · split at ht
        · injection ht with harg
          subst harg
          rfl
        · exact Except.noConfusion ht
  · intro q qt hq
    unfold processFile at hq
    split at hq
    · simp at hq
    · split at hq
      · simp at hq
      · split at hq
        · have htail : ∀ st : TaskStatus, Effect.enqueue q qt ∉
              (if saveOk then [Effect.saveStatus st] else []) := by
            intro st
            rcases saveOk with _ | _ <;> simp
          simp only [List.cons_append, List.nil_append, List.mem_cons] at hq
          rcases hq with hq | hq | hq
          · exact Effect.noConfusion hq
          · obtain ⟨hq1, hq2⟩ := (Effect.enqueue.injEq _ _ _ _).mp hq
            subst hq2
            refine ⟨rfl, ?_, ?_, ?_⟩ <;> rw [hq1] <;>
              simp [enqueueOpts, queueForPriority, defaultServiceConfig]
          · exact absurd hq (htail _)
        · simp only [List.mem_singleton] at hq
          exact Effect.noConfusion hq

/-- Witness for claim C10 along a fully successful ingest of a PDF
upload. -/
theorem claim_c10_witness :
    qtPdf.priority = 0 ∧ "low" = "low" ∧ "low" ≠ "critical" ∧
      "low" ≠ "default" :=
  (claim_c10 "t" hdrPdf (.ok "a.pdf") true true).2 "low" qtPdf (by decide)

/-! ## Claim C5 -/

/-- `processForms` characterized as a `filterMap`: one field per
qualifying block, in block order. -/
theorem processFormsAux_filterMap (blocks : List TBlock) (l : List TBlock) :
    processFormsAux blocks l =
      l.filterMap (fun b =>
        if isKeyKV b = true ∧ formKeyText blocks b ≠ "" ∧
            formValueText blocks b ≠ "" then
          some ⟨formKeyText blocks b, formValueText blocks b⟩
        else none) := by
  induction l with
  | nil => rfl
  | cons b rest ih =>
    simp only [processFormsAux, List.filterMap_cons]
    by_cases hk : isKeyKV b = true
    · by_cases hkv : formKeyText blocks b ≠ "" ∧ formValueText blocks b ≠ ""
      · rw [if_pos hk, if_pos hkv, if_pos ⟨hk, hkv.1, hkv.2⟩, ih]
      · rw [if_pos hk, if_neg hkv, if_neg (fun hcon => hkv ⟨hcon.2.1, hcon.2.2⟩),
          ih]
    · rw [if_neg hk, if_neg (fun hcon => hk hcon.1), ih]

/-- The text chunk is not a form chunk. -/
theorem isFormChunk_textChunk (t : String) :
    isFormChunk (textractTextChunk t) = false := by
  simp [isFormChunk, textractTextChunk, metaLookup]

/-- A table chunk is not a form chunk. -/
theorem isFormChunk_tableChunk (t : TTable) :
    isFormChunk (textractTableChunk t) = false := by
  simp [isFormChunk, textractTableChunk, metaLookup]

/-- A form chunk is a form chunk. -/
theorem isFormChunk_formChunk (f : FormField) :
    isFormChunk (textractFormChunk f) = true := by
  simp [isFormChunk, textractFormChunk, metaLookup]

/-- Filtering form chunks out of a non-form prefix followed by the
mapped form fields leaves exactly the mapped form fields. -/
theorem filter_form_append (pre : List DocumentChunk) (forms : List FormField)
    (hpre : ∀ c ∈ pre, isFormChunk c = false) :
    (pre ++ forms.map textractFormChunk).filter isFormChunk =
      forms.map textractFormChunk := by
  rw [List.filter_append]
  have h1 : pre.filter isFormChunk = [] := by
    rw [List.filter_eq_nil_iff]
    intro c hc
    simp [hpre c hc]
  have h2 : (forms.map textractFormChunk).filter isFormChunk =
      forms.map textractFormChunk := by
    rw [List.filter_eq_self]
    intro c hc
    rcases List.mem_map.mp hc with ⟨f, _, rfl⟩
    exact isFormChunk_formChunk f
  rw [h1, h2, List.nil_append]

/-- Every chunk `textractProcess` emits ahead of the form chunks is a
text or table chunk. -/
theorem textract_prefix_not_form (texts : List String) (tables : List TTable) :
    ∀ c ∈ (if texts.length > 0 then
            [textractTextChunk (String.intercalate "\n" texts)] else [])
          ++ tables.map textractTableChunk,
      isFormChunk c = false := by
  intro c hc
  rcases List.mem_append.mp hc with hc | hc
  · by_cases ht : texts.length > 0
    · rw [if_pos ht, List.mem_singleton] at hc
      rw [hc]
      exact isFormChunk_textChunk _
    · rw [if_neg ht] at hc
      exact absurd hc (List.not_mem_nil c)
  · rcases List.mem_map.mp hc with ⟨t, _, rfl⟩
    exact isFormChunk_tableChunk t

/-- Claim C5, amended: when `EnableForm` is set (and the call does not
panic), the form chunks of `TextractProcessor.Process` are exactly one
chunk per `KEY_VALUE_SET` block whose first entity type is `KEY` AND
whose key text and value text are both non-empty (the code skips a
qualifying block whose key or value text is empty), each with content
`"<key>: <value>"`. -/
theorem claim_c5_amended (cfg : TextractCfg) (blocks : List TBlock)
    (cs : List DocumentChunk) (hform : cfg.enableForm = true)
    (hok : textractProcess cfg blocks = some cs) :
    cs.filter isFormChunk =
      blocks.filterMap (fun b =>
        if isKeyKV b = true ∧ formKeyText blocks b ≠ "" ∧
            formValueText blocks b ≠ "" then
          some (textractFormChunk
            ⟨formKeyText blocks b, formValueText blocks b⟩)
        else none) := by
  have key : ∀ pre : List DocumentChunk,
      (∀ c ∈ pre, isFormChunk c = false) →
      cs = pre ++ (processForms blocks).map textractFormChunk →
        cs.filter isFormChunk =
          blocks.filterMap (fun b =>
            if isKeyKV b = true ∧ formKeyText blocks b ≠ "" ∧
                formValueText blocks b ≠ "" then
              some (textractFormChunk
                ⟨formKeyText blocks b, formValueText blocks b⟩)
            else none) := by
    intro pre hpre hcs
    rw [hcs, filter_form_append pre _ hpre, processForms,
      processFormsAux_filterMap, List.map_filterMap]
    congr 1
    funext b
    by_cases hb : isKeyKV b = true ∧ formKeyText blocks b ≠ "" ∧
        formValueText blocks b ≠ ""
    · rw [if_pos hb, if_pos hb]
      rfl
    · rw [if_neg hb, if_neg hb]
      rfl
  unfold textractProcess at hok
  split at hok
  · exact Option.noConfusion hok
  · rcases het : cfg.enableTable with _ | _
    · rw [het] at hok
      simp only [Bool.false_eq_true, if_false] at hok
      rw [hform] at hok
      simp only [if_true] at hok
      have hcs := (Option.some.injEq _ _).mp hok
      exact key _ (by
        intro c hc
        have := textract_prefix_not_form _ ([] : List TTable) c
          (by simpa using hc)
        exact this) hcs.symm
    · rw [het] at hok
      simp only [if_true] at hok
      rcases hpt : processTables blocks with _ | tables
      · rw [hpt] at hok
        exact Option.noConfusion hok
      · rw [hpt] at hok
        rw [hform] at hok
        simp only [if_true] at hok
        have hcs := (Option.some.injEq _ _).mp hok
        exact key _ (textract_prefix_not_form _ tables) hcs.symm

/-- Claim C5, as stated, is false: a `KEY_VALUE_SET` block whose first
entity type is `KEY` but whose key text is empty (here: no
relationships at all) produces NO form chunk, while the claim promises
one per such block. -/
theorem claim_c5_counterexample :
    isKeyKV keyOnlyBlock = true ∧
    cfgFormOnly.enableForm = true ∧
    textractProcess cfgFormOnly [keyOnlyBlock] = some [] := by
  refine ⟨by decide, rfl, ?_⟩
  decide

/-- Witness for the amended claim C5 on a block graph spelling
`Name: Alice`. -/
theorem claim_c5_amended_witness :
    ([textractFormChunk ⟨"Name", "Alice"⟩] : List DocumentChunk).filter
        isFormChunk =
      blocksNameAlice.filterMap (fun b =>
        if isKeyKV b = true ∧ formKeyText blocksNameAlice b ≠ "" ∧
            formValueText blocksNameAlice b ≠ "" then
          some (textractFormChunk ⟨formKeyText blocksNameAlice b,
            formValueText blocksNameAlice b⟩)
        else none) :=
  claim_c5_amended cfgFormOnly blocksNameAlice
    [textractFormChunk ⟨"Name", "Alice"⟩] rfl (by decide)

/-! ## Claim C8 -/

/-- Distributing a per-element cons over a `flatMap`, up to
permutation. -/
theorem flatMap_cons_perm {β γ : Type} (l : List β) (x : β → γ)
    (g : β → List γ) :
    (l.flatMap fun b => x b :: g b).Perm (l.map x ++ l.flatMap g) := by
  induction l with
  | nil => rfl
  | cons b rest ih =>
    simp only [List.flatMap_cons, List.map_cons, List.cons_append]
    refine List.Perm.cons _ ((List.Perm.append_left (g b) ih).trans ?_)
    rw [← List.append_assoc, ← List.append_assoc]
    exact (List.perm_append_comm).append_right _

/-- Transposing the nesting order of a rectangular `flatMap`/`map`
enumeration is a permutation. -/
theorem flatMap_comm_perm {α β γ : Type} (l1 : List α) (l2 : List β)
    (f : α → β → γ) :
    (l1.flatMap fun a => l2.map fun b => f a b).Perm
      (l2.flatMap fun b => l1.map fun a => f a b) := by
  induction l1 with
  | nil => simp
  | cons a rest ih =>
    simp only [List.flatMap_cons, List.map_cons]
    exact ((List.Perm.append_left _ ih)).trans
      (flatMap_cons_perm l2 (fun b => f a b)
        (fun b => rest.map fun a2 => f a2 b)).symm

/-- An inclusive integer range centered at `z` is the offset list
shifted by `z`. -/
theorem intRange_eq_offs (z : Int) (h : Nat) :
    intRange (z - h) (z + h) = (offs h).map (fun d => z + d) := by
  unfold intRange offs
  have hlen : (z + h - (z - h) + 1).toNat = 2 * h + 1 := by omega
  rw [hlen, List.map_map]
  refine List.map_congr_left ?_
  intro i _
  simp only [Function.comp_apply]
  omega

/-- For odd `blockSize`, the code's clipped window (radius
`blockSize / 2`, `dy`-outer enumeration) is a permutation of the
spec's clipped centered window (radius `(blockSize - 1) / 2`,
`x`-outer enumeration). -/
theorem windowPts_perm_specWindow (img : GrayImage) (b : Nat) (x y : Int)
    (hodd : b % 2 = 1) :
    (windowPts img (b / 2) x y).Perm (specWindow img b x y) := by
  unfold windowPts specWindow
  have hr : ((b : Int) - 1) / 2 = ((b / 2 : Nat) : Int) := by omega
  rw [hr, intRange_eq_offs x (b / 2), intRange_eq_offs y (b / 2)]
  refine List.Perm.filter _ ?_
  rw [List.flatMap_map]
  have hinner : ∀ dx : Int,
      (((offs (b / 2)).map (fun d => y + d)).map fun yi =>
          ((x + dx : Int), yi)) =
        (offs (b / 2)).map fun dy => (x + dx, y + dy) := by
    intro dx
    rw [List.map_map]
    rfl
  simp only [hinner]
  exact flatMap_comm_perm (offs (b / 2)) (offs (b / 2))
    (fun dy dx => (x + dx, y + dy))

/-- The center pixel survives in its own clipped window. -/
theorem center_mem_windowPts (img : GrayImage) (h : Nat) (x y : Int)
    (hin : inB img x y = true) :
    (x, y) ∈ windowPts img h x y := by
  unfold windowPts
  rw [List.mem_filter]
  refine ⟨?_, hin⟩
  rw [List.mem_flatMap]
  have h0 : (0 : Int) ∈ offs h := by
    unfold offs
    rw [List.mem_map]
    exact ⟨h, by rw [List.mem_range]; omega, by omega⟩
  refine ⟨0, h0, ?_⟩
  rw [List.mem_map]
  exact ⟨0, h0, by simp⟩

/-- Claim C8, confirmed (for odd `blockSize`, the only case in which a
`blockSize × blockSize` window centered at a pixel exists; the
configured default is 11): at every in-bounds pixel, the
adaptive-threshold preprocessor outputs black (0) iff the pixel's gray
value is strictly below the mean of the clipped centered
`blockSize × blockSize` window minus the constant, and white (255)
otherwise. -/
theorem claim_c8 (b : Nat) (c : ℚ) (img : GrayImage) (x y : Int)
    (hodd : b % 2 = 1) (hin : inB img x y = true) :
    (adaptiveThresholdAt b c img x y = 0 ↔
      (img.pix x y : ℚ) < specWindowMean img b x y - c) ∧
    (adaptiveThresholdAt b c img x y = 0 ∨
      adaptiveThresholdAt b c img x y = 255) := by
  have hperm := windowPts_perm_specWindow img b x y hodd
  have hsum : (windowSum img (b / 2) x y : ℚ) =
      (((specWindow img b x y).map fun p => img.pix p.1 p.2).sum : ℚ) := by
    rw [windowSum, (hperm.map _).sum_eq]
  have hcnt : windowCount img (b / 2) x y = (specWindow img b x y).length := by
    rw [windowCount, hperm.length_eq]
  have hpos : 0 < windowCount img (b / 2) x y := by
    have hmem := center_mem_windowPts img (b / 2) x y hin
    exact List.length_pos.mpr (List.ne_nil_of_mem hmem)
  have hmean : (windowSum img (b / 2) x y : ℚ) /
      (windowCount img (b / 2) x y : ℚ) = specWindowMean img b x y := by
    rw [hsum, hcnt, specWindowMean]
  constructor
  · unfold adaptiveThresholdAt
    rw [if_pos hpos, hmean]
    by_cases hlt : (img.pix x y : ℚ) < specWindowMean img b x y - c
    · rw [if_pos hlt]
      exact iff_of_true rfl hlt
    · rw [if_neg hlt]
      exact iff_of_false (by decide) hlt
  · unfold adaptiveThresholdAt
    rw [if_pos hpos]
    by_cases hlt : (img.pix x y : ℚ) <
        (windowSum img (b / 2) x y : ℚ) /
          (windowCount img (b / 2) x y : ℚ) - c
    · rw [if_pos hlt]
      exact Or.inl rfl
    · rw [if_neg hlt]
      exact Or.inr rfl

/-- Witness for claim C8 at block size 3, constant 0, on the sample
image: the dark origin pixel thresholds to black. -/
theorem claim_c8_witness :
    3 % 2 = 1 ∧ inB imgSample 0 0 = true ∧
      adaptiveThresholdAt 3 0 imgSample 0 0 = 0 :=
  ⟨rfl, rfl,
   (claim_c8 3 0 imgSample 0 0 rfl rfl).1.mpr (by
     norm_num [specWindowMean, specWindow, intRange, inB, imgSample,
       List.filter])⟩

end DocPipeline
